import Mathlib

/-!
Verification of the Markov-Ranking datastore (`src/MarkovRanking.py`).

The Python module keeps two SQLite tables:
  `elements(class TEXT UNIQUE, id INTEGER PRIMARY KEY AUTOINCREMENT)`
  `relations(class TEXT, id INTEGER PRIMARY KEY AUTOINCREMENT, count INTEGER,
             rating_sum REAL, rating_sum_squares REAL, parent_id INTEGER
             REFERENCES elements(id))`
and a `MarkovRatingSystem` whose `feedLine` ingests a rated sequence of item
names, creating or incrementing one directed relation row per ordered pair of
distinct occurrences.

The embedding below models the content of the two tables as Lean lists
(`Store`), SQL REAL as `Rat`, SQL NULL integers as `Option Nat`, and each
`DataModule` / `MarkovRatingSystem` method as a function on `Store`.  All reads
in the Python code go through the same connection that performs the writes, so
they observe uncommitted data; `DB` additionally models the committed snapshot
that other connections would see (`conn.commit` publishes the pending state).
-/

set_option maxRecDepth 4000

/-- One row of the `relations` table (`class` is a reserved word in Lean, so the
column is `class_`).  `parent_id` is `none` when the SQL value is NULL. -/
structure Row where
  class_ : String
  id : Nat
  count : Int
  rating_sum : Rat
  rating_sum_squares : Rat
  parent_id : Option Nat
deriving DecidableEq, Repr

/-- One row of the `elements` table. -/
structure Element where
  class_ : String
  id : Nat
deriving DecidableEq, Repr

/-- The content of the database as one connection sees it (uncommitted writes
included).  `nextElemId` / `nextRelId` model the two AUTOINCREMENT counters. -/
structure Store where
  elements : List Element
  relations : List Row
  nextElemId : Nat
  nextRelId : Nat
deriving DecidableEq, Repr

namespace DataModule

/-- Python `create_tables` drops both tables and recreates them empty; AUTOINCREMENT
counters restart at 1 (`DROP TABLE` clears the sqlite_sequence entries). -/
def emptyStore : Store :=
  { elements := [], relations := [], nextElemId := 1, nextRelId := 1 }

/-- SQL equality in a WHERE clause: `a = b` is satisfied only when both sides
are non-NULL and equal (NULL comparisons never match). -/
def sqlEqNat : Option Nat → Option Nat → Bool
  | some a, some b => a == b
  | _, _ => false

/-- The join condition of the queries `JOIN elements ON
relations.parent_id = elements.id WHERE elements.class = parent`: some element
row has the given id and the given class. -/
def elemJoins (s : Store) (parent : String) (pid : Option Nat) : Bool :=
  s.elements.any fun e => pid == some e.id && e.class_ == parent

/-- Python `existsRootElement`: `SELECT * FROM elements WHERE class=?`, then
`fetchone() is not None`. -/
def existsRootElement (s : Store) (name : String) : Bool :=
  (s.elements.find? fun e => e.class_ == name).isSome

/-- Python `getRootElementId`: `SELECT id FROM elements WHERE class=?`;
`int(fetchone()[0])`, or None when nothing was found. -/
def getRootElementId (s : Store) (name : String) : Option Nat :=
  (s.elements.find? fun e => e.class_ == name).map (fun e => e.id)

/-- Python `getChildren`: the relation rows joining to the parent element, projected to
`(class, count, rating_sum, rating_sum_squares)`. -/
def getChildren (s : Store) (parent : String) : List (String × Int × Rat × Rat) :=
  (s.relations.filter fun r => elemJoins s parent r.parent_id).map
    fun r => (r.class_, r.count, r.rating_sum, r.rating_sum_squares)

/-- The relation rows stored for the ordered pair `(parent, child)` (the rows
`getChildId` selects from). -/
def edgeRows (s : Store) (parent child : String) : List Row :=
  s.relations.filter fun r => r.class_ == child && elemJoins s parent r.parent_id

/-- Python `existsChildElement` executes
`SELECT * FROM relations WHERE class=? AND parent_id=?` but never fetches the
cursor and has no return statement, so the Python function returns None on
every input.  The discarded result set is kept here as `_rows` to mirror the
executed query. -/
def existsChildElement (s : Store) (parent child : String) : Option Bool :=
  let parent_id := getRootElementId s parent
  let _rows := s.relations.filter fun r =>
    r.class_ == child && sqlEqNat r.parent_id parent_id
  none

/-- Python `addRootElement`: `INSERT INTO elements VALUES (?,NULL)`.  Every caller in
the module guards this with `existsRootElement`, so the UNIQUE-violation path
(an IntegrityError that leaves the table unchanged) is never taken. -/
def addRootElement (s : Store) (name : String) : Store :=
  { s with elements := s.elements ++ [{ class_ := name, id := s.nextElemId }],
           nextElemId := s.nextElemId + 1 }

/-- Python `addRelatedElement`: `INSERT INTO relations VALUES (?,NULL,?,?,?,?)` with
values `(name, count, rating, rating*rating, parent_id)`.  The `relations`
table carries no uniqueness constraint, so the insert is unconditional. -/
def addRelatedElement (s : Store) (parent name : String) (count : Int)
    (rating : Rat) : Store :=
  let parent_id := getRootElementId s parent
  let row : Row :=
    { class_ := name, id := s.nextRelId, count := count, rating_sum := rating,
      rating_sum_squares := rating * rating, parent_id := parent_id }
  { s with relations := s.relations ++ [row], nextRelId := s.nextRelId + 1 }

/-- Python `getChildId`: `SELECT relations.id FROM relations JOIN elements ON
relations.parent_id=elements.id WHERE relations.class=? AND elements.class=?`;
first row's id, or None. -/
def getChildId (s : Store) (parent child : String) : Option Nat :=
  (s.relations.find? fun r =>
    r.class_ == child && elemJoins s parent r.parent_id).map (fun r => r.id)

/-- Python `updateChild`: `UPDATE relations SET count=?, rating_sum=?,
rating_sum_squares=? WHERE id=? AND parent_id=?` with values
`(count, rating, rating*rating, child_id, parent_id)`. -/
def updateChild (s : Store) (parent child : String) (count : Int)
    (rating : Rat) : Store :=
  let parent_id := getRootElementId s parent
  let child_id := getChildId s parent child
  { s with relations := s.relations.map fun r =>
      if sqlEqNat (some r.id) child_id && sqlEqNat r.parent_id parent_id then
        { r with count := count, rating_sum := rating,
                 rating_sum_squares := rating * rating }
      else r }

/-- Python `updateChildCount`: `UPDATE relations SET count=count+? WHERE id=? AND
parent_id=?`. -/
def updateChildCount (s : Store) (parent child : String) (increment : Int) :
    Store :=
  let parent_id := getRootElementId s parent
  let child_id := getChildId s parent child
  { s with relations := s.relations.map fun r =>
      if sqlEqNat (some r.id) child_id && sqlEqNat r.parent_id parent_id then
        { r with count := r.count + increment }
      else r }

/-- Python `updateChildRating`: `UPDATE relations SET rating_sum=rating_sum+?,
rating_sum_squares=rating_sum_squares+? WHERE id=? AND parent_id=?` with values
`(rating, rating*rating, child_id, parent_id)`. -/
def updateChildRating (s : Store) (parent child : String) (rating : Rat) :
    Store :=
  let parent_id := getRootElementId s parent
  let child_id := getChildId s parent child
  { s with relations := s.relations.map fun r =>
      if sqlEqNat (some r.id) child_id && sqlEqNat r.parent_id parent_id then
        { r with rating_sum := r.rating_sum + rating,
                 rating_sum_squares := r.rating_sum_squares + rating * rating }
      else r }

/-- Python `incrementChild`: `UPDATE relations SET count=count+?,
rating_sum=rating_sum+?, rating_sum_squares=rating_sum_squares+? WHERE id=? AND
parent_id=?` with values `(increment, rating, rating*rating, child_id,
parent_id)`. -/
def incrementChild (s : Store) (parent child : String) (increment : Int)
    (rating : Rat) : Store :=
  let parent_id := getRootElementId s parent
  let child_id := getChildId s parent child
  { s with relations := s.relations.map fun r =>
      if sqlEqNat (some r.id) child_id && sqlEqNat r.parent_id parent_id then
        { r with count := r.count + increment,
                 rating_sum := r.rating_sum + rating,
                 rating_sum_squares := r.rating_sum_squares + rating * rating }
      else r }

/-- The result set held by the cursor after `computeRating`'s query
`SELECT sum(rating_sum)/sum(count) FROM elements JOIN relations ON
elements.id=relations.parent_id WHERE elements.class=?`: SQL `sum()` over no
rows is NULL, and division by NULL or by zero yields NULL. -/
def computeRatingQuery (s : Store) (element : String) : Option Rat :=
  let rows := s.relations.filter fun r => elemJoins s element r.parent_id
  if rows.isEmpty then none
  else
    let csum : Int := (rows.map fun r => r.count).sum
    if csum = 0 then none
    else some (((rows.map fun r => r.rating_sum).sum) / (csum : Rat))

/-- Python `computeRating` executes the query above but never fetches the cursor and
has no return statement: the Python function returns None on every input. -/
def computeRating (s : Store) (element : String) : Option Rat :=
  let _rows := computeRatingQuery s element
  none

end DataModule

namespace MarkovRatingSystem

open DataModule

/-- Python `isRootElement` delegates to `DataModule.existsRootElement`. -/
def isRootElement (s : Store) (element : String) : Bool :=
  existsRootElement s element

/-- Python `addNewRootElement` delegates to `DataModule.addRootElement`. -/
def addNewRootElement (s : Store) (element : String) : Store :=
  addRootElement s element

/-- Python `isChildOf`: `childlist = getChildren(element); names = [x[0] for x in
childlist]; return relatedElement in names`. -/
def isChildOf (s : Store) (element relatedElement : String) : Bool :=
  ((getChildren s element).map fun t => t.1).contains relatedElement

/-- Python `incrementRelatedBoth` delegates to `DataModule.incrementChild`. -/
def incrementRelatedBoth (s : Store) (parent childName : String)
    (increment : Int) (rating : Rat) : Store :=
  incrementChild s parent childName increment rating

/-- The head of `feedLine`'s outer loop body: `if not self.isRootElement(x):
self.addNewRootElement(x)`. -/
def ensureRoot (s : Store) (x : String) : Store :=
  if ! isRootElement s x then addNewRootElement s x else s

/-- The body of `feedLine`'s inner loop for the pair `(x, y)`:
`if x != y: (if not isChildOf(x,y): addRelatedElement(x,y,1,rating) else:
incrementRelatedBoth(x,y,1,rating))`. -/
def pairUpdate (rating : Rat) (x : String) (s : Store) (y : String) : Store :=
  if x ≠ y then
    if ! isChildOf s x y then addRelatedElement s x y 1 rating
    else incrementRelatedBoth s x y 1 rating
  else s

/-- Python `feedLine`'s outer loop, generalized over the list `xs` of outer items
still to process while the inner loop always runs over the full
`relationList` `l`. -/
def feedLoop (rating : Rat) (l : List String) (s : Store) (xs : List String) :
    Store :=
  xs.foldl (fun s x => l.foldl (pairUpdate rating x) (ensureRoot s x)) s

/-- Python `feedLine(rating, relationList)`: for every `x` in the list, ensure `x` is
a root element, then for every `y` in the list with `x != y` create or
increment the relation `(x, y)` with count 1 and the line's rating. -/
def feedLine (s : Store) (rating : Rat) (relationList : List String) : Store :=
  feedLoop rating relationList s relationList

/-- Feeding a batch of `(rating, items)` lines in order, as `test1` does with
`markov.feedLine(line[0], line[1:])`, starting from the freshly created
tables. -/
def feedAll (seqs : List (Rat × List String)) : Store :=
  seqs.foldl (fun s rl => feedLine s rl.1 rl.2) emptyStore

end MarkovRatingSystem

namespace DataModule

/-- The connection-level state: `pending` is what the writing connection sees
(uncommitted changes included), `committed` the durable snapshot other
connections read. -/
structure DB where
  pending : Store
  committed : Store
deriving DecidableEq, Repr

/-- Python `commit`: `self.conn.commit()` publishes every pending mutation at once. -/
def commitDB (db : DB) : DB :=
  { pending := db.pending, committed := db.pending }

/-- Python `create_tables` (run by `DataModule.__init__` on every construction):
drops both tables, recreates them empty and commits (line 67), regardless of
what the database held before. -/
def create_tablesDB (_db : DB) : DB :=
  { pending := emptyStore, committed := emptyStore }

/-- A freshly constructed `DataModule` on a new database file. -/
def initDB : DB :=
  { pending := emptyStore, committed := emptyStore }

/-- Python `feedLine` at the connection level: every read and write of the ingestion
pass happens on the same uncommitted connection; nothing is committed. -/
def feedLineDB (db : DB) (rating : Rat) (relationList : List String) : DB :=
  { db with pending := MarkovRatingSystem.feedLine db.pending rating relationList }

end DataModule

namespace MarkovModel

open DataModule MarkovRatingSystem

/-- The online statistics carried by one relation row. -/
def stats (r : Row) : Int × Rat × Rat :=
  (r.count, r.rating_sum, r.rating_sum_squares)

/-- The statistics stored for the directed edge `(parent, child)`: those of the
first stored row for the pair, the row every fetchone-based query sees. -/
def edgeStats (s : Store) (parent child : String) : Option (Int × Rat × Rat) :=
  (edgeRows s parent child).head?.map stats

/-- The stored count of an edge, with 0 for an absent edge. -/
def countOf (o : Option (Int × Rat × Rat)) : Int :=
  (o.map fun t => t.1).getD 0

/-- One create-or-increment touch of an edge's statistics with a given rating,
as one inner-loop iteration of `feedLine` performs it. -/
def bump (o : Option (Int × Rat × Rat)) (rating : Rat) :
    Option (Int × Rat × Rat) :=
  match o with
  | none => some (1, rating, rating * rating)
  | some t => some (t.1 + 1, t.2.1 + rating, t.2.2 + rating * rating)

/-- Iterated bump: `n` successive touches of an edge's statistics with the same rating. -/
def bumpN (o : Option (Int × Rat × Rat)) (n : Nat) (rating : Rat) :
    Option (Int × Rat × Rat) :=
  match n with
  | 0 => o
  | n + 1 => bump (bumpN o n rating) rating

/-- The well-formedness invariant every store reachable through `feedLine`
satisfies: element classes and ids are unique (the schema's UNIQUE and PRIMARY
KEY constraints), relation ids are unique and below the AUTOINCREMENT counter,
every relation's parent id points at a stored element, and no two relation
rows share the same (class, parent) key. -/
def Good (s : Store) : Prop :=
  (s.elements.map fun e => e.class_).Nodup ∧
  (s.elements.map fun e => e.id).Nodup ∧
  (∀ e ∈ s.elements, e.id < s.nextElemId) ∧
  (s.relations.map fun r => r.id).Nodup ∧
  (∀ r ∈ s.relations, r.id < s.nextRelId) ∧
  (∀ r ∈ s.relations, ∃ e ∈ s.elements, r.parent_id = some e.id) ∧
  s.relations.Pairwise fun r₁ r₂ =>
    ¬(r₁.class_ = r₂.class_ ∧ r₁.parent_id = r₂.parent_id)

theorem good_emptyStore : Good emptyStore := by
  constructor <;> simp [emptyStore]

instance (s : Store) : Decidable (Good s) := by
  unfold Good
  infer_instance

theorem find?_eq_head?_filter (p : α → Bool) (l : List α) :
    l.find? p = (l.filter p).head? := by
  induction l with
  | nil => rfl
  | cons a t ih =>
    cases h : p a with
    | true => rw [List.find?_cons_of_pos _ h, List.filter_cons_of_pos h]; rfl
    | false => rw [List.find?_cons_of_neg _ (by simp [h]), List.filter_cons_of_neg (by simp [h]), ih]

theorem mem_edgeRows {s : Store} {p c : String} {r : Row} :
    r ∈ edgeRows s p c ↔
      r ∈ s.relations ∧ r.class_ = c ∧ elemJoins s p r.parent_id = true := by
  simp [edgeRows, List.mem_filter, and_assoc]

theorem elemJoins_iff {s : Store} {p : String} {pid : Option Nat} :
    elemJoins s p pid = true ↔
      ∃ e ∈ s.elements, pid = some e.id ∧ e.class_ = p := by
  simp [elemJoins]

theorem existsRootElement_iff {s : Store} {x : String} :
    existsRootElement s x = true ↔ ∃ e ∈ s.elements, e.class_ = x := by
  simp [existsRootElement, List.find?_isSome]

theorem getRootElementId_spec {s : Store} {x : String}
    (h : existsRootElement s x = true) :
    ∃ e ∈ s.elements, e.class_ = x ∧ getRootElementId s x = some e.id := by
  cases hf : s.elements.find? (fun e => e.class_ == x) with
  | none => simp [existsRootElement, hf] at h
  | some e =>
    refine ⟨e, List.mem_of_find?_eq_some hf, ?_, by simp [getRootElementId, hf]⟩
    simpa using List.find?_some hf

theorem elem_unique {s : Store} (hnd : (s.elements.map fun e => e.class_).Nodup)
    {e₁ e₂ : Element} (h₁ : e₁ ∈ s.elements) (h₂ : e₂ ∈ s.elements)
    (hc : e₁.class_ = e₂.class_) : e₁ = e₂ :=
  List.inj_on_of_nodup_map hnd h₁ h₂ hc

theorem isChildOf_iff {s : Store} {x y : String} :
    isChildOf s x y = true ↔ ∃ r, r ∈ edgeRows s x y := by
  have hmap : (getChildren s x).map (fun t => t.1) =
      (s.relations.filter fun r => elemJoins s x r.parent_id).map
        fun r => r.class_ := by
    simp [getChildren, List.map_map]
  constructor
  · intro h
    rw [isChildOf, hmap] at h
    have hy : y ∈ (s.relations.filter fun r => elemJoins s x r.parent_id).map
        fun r => r.class_ := by simpa using h
    obtain ⟨r, hr, hc⟩ := List.mem_map.1 hy
    have hm := List.mem_filter.1 hr
    exact ⟨r, mem_edgeRows.2 ⟨hm.1, hc, hm.2⟩⟩
  · intro ⟨r, hr⟩
    obtain ⟨hrel, hc, hj⟩ := mem_edgeRows.1 hr
    rw [isChildOf, hmap]
    have hy : y ∈ (s.relations.filter fun r => elemJoins s x r.parent_id).map
        fun r => r.class_ :=
      List.mem_map.2 ⟨r, List.mem_filter.2 ⟨hrel, hj⟩, hc⟩
    simpa using hy

theorem edgeRows_pairwise {s : Store} (hg : Good s) (p c : String) :
    (edgeRows s p c).Pairwise fun r₁ r₂ =>
      ¬(r₁.class_ = r₂.class_ ∧ r₁.parent_id = r₂.parent_id) :=
  hg.2.2.2.2.2.2.sublist (List.filter_sublist s.relations)

theorem edgeRows_parent_eq {s : Store} {p c : String} {r : Row}
    (hr : r ∈ edgeRows s p c) :
    ∃ e ∈ s.elements, e.class_ = p ∧ r.parent_id = some e.id := by
  obtain ⟨-, -, hj⟩ := mem_edgeRows.1 hr
  obtain ⟨e, he, hid, hc⟩ := elemJoins_iff.1 hj
  exact ⟨e, he, hc, hid⟩

theorem edgeRows_length_le_one {s : Store} (hg : Good s) (p c : String) :
    (edgeRows s p c).length ≤ 1 := by
  cases hrows : edgeRows s p c with
  | nil => simp
  | cons r₁ t =>
    cases t with
    | nil => simp
    | cons r₂ t' =>
      exfalso
      have hpw := edgeRows_pairwise hg p c
      rw [hrows] at hpw
      have hrel : ¬(r₁.class_ = r₂.class_ ∧ r₁.parent_id = r₂.parent_id) :=
        (List.pairwise_cons.1 hpw).1 r₂ (by simp)
      have h₁ : r₁ ∈ edgeRows s p c := by rw [hrows]; simp
      have h₂ : r₂ ∈ edgeRows s p c := by rw [hrows]; simp
      obtain ⟨e₁, he₁, hc₁, hp₁⟩ := edgeRows_parent_eq h₁
      obtain ⟨e₂, he₂, hc₂, hp₂⟩ := edgeRows_parent_eq h₂
      have he : e₁ = e₂ := elem_unique hg.1 he₁ he₂ (hc₁.trans hc₂.symm)
      exact hrel ⟨((mem_edgeRows.1 h₁).2.1).trans ((mem_edgeRows.1 h₂).2.1).symm,
        by rw [hp₁, hp₂, he]⟩

theorem edgeRows_eq_singleton {s : Store} (hg : Good s) {p c : String} {r : Row}
    (hh : (edgeRows s p c).head? = some r) : edgeRows s p c = [r] := by
  have hl := edgeRows_length_le_one hg p c
  cases hrows : edgeRows s p c with
  | nil => rw [hrows] at hh; simp at hh
  | cons r₁ t =>
    rw [hrows] at hh hl
    simp at hh
    cases t with
    | nil => rw [hh]
    | cons r₂ t' => simp [List.length_cons] at hl

theorem elemJoins_congr {s s' : Store} (h : s'.elements = s.elements)
    (p : String) (pid : Option Nat) : elemJoins s' p pid = elemJoins s p pid := by
  unfold elemJoins
  rw [h]

theorem existsRootElement_congr {s s' : Store} (h : s'.elements = s.elements)
    (n : String) : existsRootElement s' n = existsRootElement s n := by
  unfold existsRootElement
  rw [h]

theorem edgeRows_congr_relations {s : Store} {l : List Row} {k : Nat}
    (p c : String) :
    edgeRows { s with relations := l, nextRelId := k } p c =
      l.filter fun r => r.class_ == c && elemJoins s p r.parent_id := rfl

/-- The element `getRootElementId` resolves for a present class joins back to
exactly the class it was looked up by (unique element ids make the join
unambiguous). -/
theorem elemJoins_getRootElementId {s : Store} {x : String}
    (hx : existsRootElement s x = true)
    (_hcls : (s.elements.map fun e => e.class_).Nodup)
    (hids : (s.elements.map fun e => e.id).Nodup) (p : String) :
    (elemJoins s p (getRootElementId s x) = true) ↔ p = x := by
  obtain ⟨e₀, he₀, hc₀, hid₀⟩ := getRootElementId_spec hx
  rw [hid₀]
  constructor
  · intro h
    obtain ⟨e, he, hid, hc⟩ := elemJoins_iff.1 h
    have : e = e₀ := List.inj_on_of_nodup_map hids he he₀ (by simpa using hid.symm)
    rw [← hc, this, hc₀]
  · intro h
    exact elemJoins_iff.2 ⟨e₀, he₀, rfl, hc₀.trans h.symm⟩

/-- The inserted relation row of `addRelatedElement`. -/
def newRow (s : Store) (x y : String) (k : Int) (rating : Rat) : Row :=
  { class_ := y, id := s.nextRelId, count := k, rating_sum := rating,
    rating_sum_squares := rating * rating, parent_id := getRootElementId s x }

theorem addRelatedElement_elements (s : Store) (x y : String) (k : Int)
    (rating : Rat) : (addRelatedElement s x y k rating).elements = s.elements :=
  rfl

theorem addRelatedElement_relations (s : Store) (x y : String) (k : Int)
    (rating : Rat) :
    (addRelatedElement s x y k rating).relations =
      s.relations ++ [newRow s x y k rating] := rfl

theorem edgeRows_addRelatedElement {s : Store} {x y : String} (k : Int)
    (rating : Rat) (hx : existsRootElement s x = true)
    (hcls : (s.elements.map fun e => e.class_).Nodup)
    (hids : (s.elements.map fun e => e.id).Nodup) (p c : String) :
    edgeRows (addRelatedElement s x y k rating) p c =
      edgeRows s p c ++
        if p = x ∧ c = y then [newRow s x y k rating] else [] := by
  have hstep : edgeRows (addRelatedElement s x y k rating) p c =
      (s.relations ++ [newRow s x y k rating]).filter
        fun r => r.class_ == c && elemJoins s p r.parent_id := rfl
  rw [hstep, List.filter_append]
  congr 1
  by_cases hpc : p = x ∧ c = y
  · obtain ⟨hp, hc⟩ := hpc
    subst hp
    subst hc
    have hj : elemJoins s p (getRootElementId s p) = true :=
      (elemJoins_getRootElementId hx hcls hids p).2 rfl
    simp [newRow, hj, List.filter_cons]
  · have : ¬(y = c ∧ elemJoins s p (getRootElementId s x) = true) := by
      intro ⟨hyc, hj⟩
      exact hpc ⟨(elemJoins_getRootElementId hx hcls hids p).1 hj, hyc.symm⟩
    rcases Decidable.not_and_iff_or_not.1 this with hyc | hj
    · simp [newRow, List.filter_cons, beq_iff_eq, hyc, hpc]
    · have hj' : elemJoins s p (getRootElementId s x) = false :=
        Bool.eq_false_iff.2 hj
      simp [newRow, List.filter_cons, hj', hpc]

theorem good_addRelatedElement {s : Store} (hg : Good s) {x y : String}
    {k : Int} {rating : Rat} (hx : existsRootElement s x = true)
    (habs : edgeRows s x y = []) : Good (addRelatedElement s x y k rating) := by
  obtain ⟨hcls, hids, heltlt, hrids, hrlt, hpar, hpw⟩ := hg
  obtain ⟨e₀, he₀, hc₀, hid₀⟩ := getRootElementId_spec hx
  have hnotin : s.nextRelId ∉ s.relations.map fun r => r.id := by
    intro hmem
    obtain ⟨r, hr, hid⟩ := List.mem_map.1 hmem
    exact absurd hid (Nat.ne_of_lt (hrlt r hr))
  refine ⟨hcls, hids, heltlt, ?_, ?_, ?_, ?_⟩
  · rw [addRelatedElement_relations, List.map_append, List.nodup_append]
    exact ⟨hrids, by simp [newRow], by simpa [newRow, List.disjoint_singleton] using hnotin⟩
  · rw [addRelatedElement_relations]
    intro r hr
    rcases List.mem_append.1 hr with hr | hr
    · exact Nat.lt_succ_of_lt (hrlt r hr)
    · have : r = newRow s x y k rating := by simpa using hr
      simp [this, newRow, addRelatedElement, Nat.lt_succ_self]
  · rw [addRelatedElement_relations]
    intro r hr
    rcases List.mem_append.1 hr with hr | hr
    · exact hpar r hr
    · have he : r = newRow s x y k rating := by simpa using hr
      exact ⟨e₀, he₀, by simp [he, newRow, hid₀]⟩
  · rw [addRelatedElement_relations, List.pairwise_append]
    refine ⟨hpw, by simp, ?_⟩
    intro r hr r' hr' ⟨hcc, hpp⟩
    have hr'' : r' = newRow s x y k rating := by simpa using hr'
    have hcy : r.class_ = y := by rw [hcc, hr'']; rfl
    have hpe : r.parent_id = some e₀.id := by
      rw [hpp, hr'']
      simpa [newRow] using hid₀
    have : r ∈ edgeRows s x y :=
      mem_edgeRows.2 ⟨hr, hcy, elemJoins_iff.2 ⟨e₀, he₀, hpe, hc₀⟩⟩
    rw [habs] at this
    exact absurd this (List.not_mem_nil r)

/-- The shared shape of the four UPDATE statements: every relation row whose id
and parent id match the looked-up `child_id` and `parent_id` is replaced by
`g r`. -/
def updateWhere (s : Store) (x y : String) (g : Row → Row) : Store :=
  { s with relations := s.relations.map fun r =>
      if sqlEqNat (some r.id) (getChildId s x y) &&
         sqlEqNat r.parent_id (getRootElementId s x) then g r else r }

theorem incrementChild_eq_updateWhere (s : Store) (x y : String) (k : Int)
    (rating : Rat) :
    incrementChild s x y k rating = updateWhere s x y fun r =>
      { r with count := r.count + k, rating_sum := r.rating_sum + rating,
               rating_sum_squares := r.rating_sum_squares + rating * rating } :=
  rfl

theorem updateChild_eq_updateWhere (s : Store) (x y : String) (k : Int)
    (rating : Rat) :
    updateChild s x y k rating = updateWhere s x y fun r =>
      { r with count := k, rating_sum := rating,
               rating_sum_squares := rating * rating } :=
  rfl

theorem updateChildCount_eq_updateWhere (s : Store) (x y : String) (k : Int) :
    updateChildCount s x y k = updateWhere s x y fun r =>
      { r with count := r.count + k } :=
  rfl

theorem updateChildRating_eq_updateWhere (s : Store) (x y : String)
    (rating : Rat) :
    updateChildRating s x y rating = updateWhere s x y fun r =>
      { r with rating_sum := r.rating_sum + rating,
               rating_sum_squares := r.rating_sum_squares + rating * rating } :=
  rfl

theorem sqlEqNat_none_right (a : Option Nat) : sqlEqNat a none = false := by
  cases a <;> rfl

/-- An UPDATE whose `getChildId` lookup found no row matches nothing: the store
is returned unchanged (`WHERE id=NULL` never holds). -/
theorem updateWhere_of_none {s : Store} {x y : String} {g : Row → Row}
    (h : getChildId s x y = none) : updateWhere s x y g = s := by
  unfold updateWhere
  rw [h]
  simp [sqlEqNat_none_right]

theorem getChildId_eq_head? (s : Store) (x y : String) :
    getChildId s x y = (edgeRows s x y).head?.map fun r => r.id := by
  unfold getChildId edgeRows
  rw [find?_eq_head?_filter]

/-- Effect of a field-preserving UPDATE on the stored edges, when the matched
edge is the unique row `r₀`: the `(x, y)` row becomes `g r₀`, every other edge
is untouched. -/
theorem edgeRows_updateWhere {s : Store} (hg : Good s) {x y : String} {r₀ : Row}
    (hrow : edgeRows s x y = [r₀]) (g : Row → Row)
    (hgc : ∀ r, (g r).class_ = r.class_)
    (hgp : ∀ r, (g r).parent_id = r.parent_id)
    (_hgi : ∀ r, (g r).id = r.id) (p c : String) :
    edgeRows (updateWhere s x y g) p c =
      if p = x ∧ c = y then [g r₀] else edgeRows s p c := by
  obtain ⟨hcls, hids, heltlt, hrids, hrlt, hpar, hpw⟩ := hg
  have hr₀mem : r₀ ∈ edgeRows s x y := by rw [hrow]; simp
  have hr₀rel : r₀ ∈ s.relations := (mem_edgeRows.1 hr₀mem).1
  have hr₀cls : r₀.class_ = y := (mem_edgeRows.1 hr₀mem).2.1
  obtain ⟨e₀, he₀, hec₀, hep₀⟩ := edgeRows_parent_eq hr₀mem
  have hx : existsRootElement s x = true := existsRootElement_iff.2 ⟨e₀, he₀, hec₀⟩
  obtain ⟨e₁, he₁, hc₁, hid₁⟩ := getRootElementId_spec hx
  have he01 : e₀ = e₁ := elem_unique hcls he₀ he₁ (hec₀.trans hc₁.symm)
  have hpid : getRootElementId s x = some e₀.id := by rw [hid₁, he01]
  have hcid : getChildId s x y = some r₀.id := by
    rw [getChildId_eq_head?, hrow]
    rfl
  have hfr : ∀ r ∈ s.relations,
      (if sqlEqNat (some r.id) (getChildId s x y) &&
          sqlEqNat r.parent_id (getRootElementId s x) then g r else r) =
        if r = r₀ then g r₀ else r := by
    intro r hr
    by_cases hrr : r = r₀
    · subst hrr
      have h1 : sqlEqNat (some r.id) (getChildId s x y) = true := by
        rw [hcid]
        simp [sqlEqNat]
      have h2 : sqlEqNat r.parent_id (getRootElementId s x) = true := by
        rw [hpid, hep₀]
        simp [sqlEqNat]
      simp [h1, h2]
    · have hri : r.id ≠ r₀.id := fun hid =>
        hrr (List.inj_on_of_nodup_map hrids hr hr₀rel hid)
      have h1 : sqlEqNat (some r.id) (getChildId s x y) = false := by
        rw [hcid]
        simpa [sqlEqNat] using hri
      simp [h1, hrr]
  have hstep : edgeRows (updateWhere s x y g) p c =
      (s.relations.map fun r =>
        if sqlEqNat (some r.id) (getChildId s x y) &&
           sqlEqNat r.parent_id (getRootElementId s x) then g r else r).filter
        (fun r => r.class_ == c && elemJoins s p r.parent_id) := rfl
  have hpresf : ∀ r ∈ s.relations,
      ((fun r => r.class_ == c && elemJoins s p r.parent_id) ∘
        fun a => if a = r₀ then g r₀ else a) r =
      (fun r => r.class_ == c && elemJoins s p r.parent_id) r := by
    intro r hr
    show ((if r = r₀ then g r₀ else r).class_ == c &&
        elemJoins s p (if r = r₀ then g r₀ else r).parent_id) =
      (r.class_ == c && elemJoins s p r.parent_id)
    by_cases hrr : r = r₀
    · subst hrr
      simp [hgc, hgp]
    · simp [hrr]
  rw [hstep, List.map_congr_left hfr, List.filter_map]
  rw [List.filter_congr hpresf]
  by_cases hpc : p = x ∧ c = y
  · obtain ⟨hp, hc⟩ := hpc
    subst hp
    subst hc
    rw [if_pos ⟨rfl, rfl⟩]
    show (edgeRows s p c).map _ = _
    rw [hrow]
    simp
  · rw [if_neg hpc]
    show (edgeRows s p c).map _ = _
    have hnone : ∀ r ∈ edgeRows s p c, (if r = r₀ then g r₀ else r) = r := by
      intro r hr
      have hrr : r ≠ r₀ := by
        intro hrr
        subst hrr
        have hcy : c = y := ((mem_edgeRows.1 hr).2.1).symm.trans hr₀cls
        obtain ⟨e₂, he₂, hc₂, hp₂⟩ := edgeRows_parent_eq hr
        have : e₂ = e₀ := List.inj_on_of_nodup_map hids he₂ he₀
          (by have := hp₂.symm.trans hep₀; simpa using this)
        exact hpc ⟨hc₂.symm.trans (this ▸ hec₀), hcy⟩
      rw [if_neg hrr]
    rw [List.map_congr_left hnone]
    exact List.map_id _

theorem good_map_relations {s : Store} (hg : Good s) (f : Row → Row)
    (hfc : ∀ r, (f r).class_ = r.class_)
    (hfp : ∀ r, (f r).parent_id = r.parent_id)
    (hfi : ∀ r, (f r).id = r.id) :
    Good { s with relations := s.relations.map f } := by
  obtain ⟨hcls, hids, heltlt, hrids, hrlt, hpar, hpw⟩ := hg
  refine ⟨hcls, hids, heltlt, ?_, ?_, ?_, ?_⟩
  · show ((s.relations.map f).map fun r => r.id).Nodup
    rw [List.map_map]
    have : ((fun r => r.id) ∘ f) = fun r : Row => r.id := funext fun r => hfi r
    rw [this]
    exact hrids
  · intro r hr
    obtain ⟨r', hr', rfl⟩ := List.mem_map.1 hr
    rw [hfi]
    exact hrlt r' hr'
  · intro r hr
    obtain ⟨r', hr', rfl⟩ := List.mem_map.1 hr
    obtain ⟨e, he, hpe⟩ := hpar r' hr'
    exact ⟨e, he, by rw [hfp]; exact hpe⟩
  · show ((s.relations.map f).Pairwise _)
    rw [List.pairwise_map]
    refine hpw.imp ?_
    intro a b h hc
    exact h ⟨by rw [← hfc a, ← hfc b]; exact hc.1,
             by rw [← hfp a, ← hfp b]; exact hc.2⟩

theorem good_updateWhere {s : Store} (hg : Good s) (x y : String)
    (g : Row → Row) (hgc : ∀ r, (g r).class_ = r.class_)
    (hgp : ∀ r, (g r).parent_id = r.parent_id)
    (hgi : ∀ r, (g r).id = r.id) : Good (updateWhere s x y g) := by
  refine good_map_relations hg _ ?_ ?_ ?_ <;> intro r <;> dsimp only <;> split
  · exact hgc r
  · rfl
  · exact hgp r
  · rfl
  · exact hgi r
  · rfl

theorem addRootElement_relations (s : Store) (x : String) :
    (addRootElement s x).relations = s.relations := rfl

theorem existsRootElement_addRootElement_self (s : Store) (x : String) :
    existsRootElement (addRootElement s x) x = true := by
  unfold existsRootElement addRootElement
  rw [List.find?_append]
  cases h : s.elements.find? fun e => e.class_ == x <;> simp [h]

theorem existsRootElement_addRootElement_mono {s : Store} {n : String}
    (x : String) (h : existsRootElement s n = true) :
    existsRootElement (addRootElement s x) n = true := by
  unfold existsRootElement at h ⊢
  unfold addRootElement
  rw [List.find?_append]
  cases hf : s.elements.find? fun e => e.class_ == n with
  | none => rw [hf] at h; simp at h
  | some e => simp [hf]

theorem good_addRootElement {s : Store} (hg : Good s) {x : String}
    (hx : existsRootElement s x = false) : Good (addRootElement s x) := by
  obtain ⟨hcls, hids, heltlt, hrids, hrlt, hpar, hpw⟩ := hg
  have hnotin : ∀ e ∈ s.elements, e.class_ ≠ x := by
    intro e he hc
    have : (s.elements.find? fun e => e.class_ == x).isSome = true :=
      List.find?_isSome.2 ⟨e, he, by simp [hc]⟩
    rw [show (s.elements.find? fun e => e.class_ == x).isSome =
        existsRootElement s x from rfl, hx] at this
    exact Bool.false_ne_true this
  have hidfresh : ∀ e ∈ s.elements, e.id ≠ s.nextElemId := fun e he =>
    Nat.ne_of_lt (heltlt e he)
  refine ⟨?_, ?_, ?_, hrids, hrlt, ?_, hpw⟩
  · show ((s.elements ++ [(⟨x, s.nextElemId⟩ : Element)]).map fun e => e.class_).Nodup
    rw [List.map_append, List.nodup_append]
    refine ⟨hcls, by simp, ?_⟩
    intro n hn hn'
    obtain ⟨e, he, rfl⟩ := List.mem_map.1 hn
    have : e.class_ = x := by simpa using hn'
    exact hnotin e he this
  · show ((s.elements ++ [(⟨x, s.nextElemId⟩ : Element)]).map fun e => e.id).Nodup
    rw [List.map_append, List.nodup_append]
    refine ⟨hids, by simp, ?_⟩
    intro n hn hn'
    obtain ⟨e, he, rfl⟩ := List.mem_map.1 hn
    have : e.id = s.nextElemId := by simpa using hn'
    exact hidfresh e he this
  · intro e he
    rcases List.mem_append.1 he with he | he
    · exact Nat.lt_succ_of_lt (heltlt e he)
    · have : e = (⟨x, s.nextElemId⟩ : Element) := by simpa using he
      simp [this, addRootElement, Nat.lt_succ_self]
  · intro r hr
    obtain ⟨e, he, hpe⟩ := hpar r hr
    exact ⟨e, List.mem_append_left _ he, hpe⟩

theorem elemJoins_addRootElement {s : Store} {x p : String} {pid : Option Nat}
    (hvalid : ∃ e ∈ s.elements, pid = some e.id)
    (hlt : ∀ e ∈ s.elements, e.id < s.nextElemId) :
    elemJoins (addRootElement s x) p pid = elemJoins s p pid := by
  obtain ⟨e, he, rfl⟩ := hvalid
  show ((s.elements ++ [(⟨x, s.nextElemId⟩ : Element)]).any fun e' =>
      some e.id == some e'.id && e'.class_ == p) = _
  rw [List.any_append]
  have : ([(⟨x, s.nextElemId⟩ : Element)].any fun e' =>
      some e.id == some e'.id && e'.class_ == p) = false := by
    simp [Nat.ne_of_lt (hlt e he)]
  rw [this, Bool.or_false]
  rfl

theorem edgeRows_addRootElement {s : Store} (hg : Good s) (x p c : String) :
    edgeRows (addRootElement s x) p c = edgeRows s p c := by
  obtain ⟨hcls, hids, heltlt, hrids, hrlt, hpar, hpw⟩ := hg
  show s.relations.filter _ = s.relations.filter _
  apply List.filter_congr
  intro r hr
  rw [elemJoins_addRootElement (hpar r hr) heltlt]

theorem ensureRoot_eq_of_exists {s : Store} {x : String}
    (h : existsRootElement s x = true) : ensureRoot s x = s := by
  unfold ensureRoot isRootElement
  rw [h]
  rfl

theorem ensureRoot_eq_of_absent {s : Store} {x : String}
    (h : existsRootElement s x = false) : ensureRoot s x = addRootElement s x := by
  unfold ensureRoot isRootElement addNewRootElement
  rw [h]
  rfl

theorem good_ensureRoot {s : Store} (hg : Good s) (x : String) :
    Good (ensureRoot s x) := by
  cases h : existsRootElement s x with
  | true => rw [ensureRoot_eq_of_exists h]; exact hg
  | false => rw [ensureRoot_eq_of_absent h]; exact good_addRootElement hg h

theorem edgeRows_ensureRoot {s : Store} (hg : Good s) (x p c : String) :
    edgeRows (ensureRoot s x) p c = edgeRows s p c := by
  cases h : existsRootElement s x with
  | true => rw [ensureRoot_eq_of_exists h]
  | false => rw [ensureRoot_eq_of_absent h]; exact edgeRows_addRootElement hg x p c

theorem existsRootElement_ensureRoot_self (s : Store) (x : String) :
    existsRootElement (ensureRoot s x) x = true := by
  cases h : existsRootElement s x with
  | true => rw [ensureRoot_eq_of_exists h]; exact h
  | false => rw [ensureRoot_eq_of_absent h]; exact existsRootElement_addRootElement_self s x

theorem existsRootElement_ensureRoot_mono {s : Store} {n : String} (x : String)
    (h : existsRootElement s n = true) :
    existsRootElement (ensureRoot s x) n = true := by
  cases hx : existsRootElement s x with
  | true => rw [ensureRoot_eq_of_exists hx]; exact h
  | false => rw [ensureRoot_eq_of_absent hx]; exact existsRootElement_addRootElement_mono x h

theorem isChildOf_false_iff {s : Store} {x y : String} :
    isChildOf s x y = false ↔ edgeRows s x y = [] := by
  constructor
  · intro h
    cases hrows : edgeRows s x y with
    | nil => rfl
    | cons a t =>
      have ht : isChildOf s x y = true := isChildOf_iff.2 ⟨a, by rw [hrows]; simp⟩
      rw [h] at ht
      exact absurd ht Bool.false_ne_true
  · intro h
    cases hc : isChildOf s x y with
    | false => rfl
    | true =>
      obtain ⟨r, hr⟩ := isChildOf_iff.1 hc
      rw [h] at hr
      exact absurd hr (List.not_mem_nil r)

theorem pairUpdate_elements (rating : Rat) (x : String) (s : Store)
    (y : String) : (pairUpdate rating x s y).elements = s.elements := by
  unfold pairUpdate
  split
  · split <;> rfl
  · rfl

theorem good_pairUpdate {s : Store} (hg : Good s) {x : String}
    (hx : existsRootElement s x = true) (rating : Rat) (y : String) :
    Good (pairUpdate rating x s y) := by
  unfold pairUpdate
  split
  · split
    · rename_i hxy hnc
      have hfalse : isChildOf s x y = false := by simpa using hnc
      exact good_addRelatedElement hg hx (isChildOf_false_iff.1 hfalse)
    · show Good (updateWhere s x y fun r =>
        { r with count := r.count + 1, rating_sum := r.rating_sum + rating,
                 rating_sum_squares := r.rating_sum_squares + rating * rating })
      exact good_updateWhere hg x y _ (fun r => rfl) (fun r => rfl) (fun r => rfl)
  · exact hg

theorem edgeStats_pairUpdate {s : Store} (hg : Good s) {x : String}
    (hx : existsRootElement s x = true) (rating : Rat) (y p c : String) :
    edgeStats (pairUpdate rating x s y) p c =
      if p = x ∧ c = y ∧ x ≠ y then bump (edgeStats s p c) rating
      else edgeStats s p c := by
  unfold pairUpdate
  split
  · rename_i hxy
    split
    · rename_i hnc
      have hfalse : isChildOf s x y = false := by simpa using hnc
      have habs : edgeRows s x y = [] := isChildOf_false_iff.1 hfalse
      unfold edgeStats
      rw [edgeRows_addRelatedElement 1 rating hx hg.1 hg.2.1 p c]
      by_cases hpc : p = x ∧ c = y
      · obtain ⟨hp, hc⟩ := hpc
        subst hp
        subst hc
        rw [if_pos ⟨rfl, rfl⟩, if_pos ⟨rfl, rfl, hxy⟩, habs]
        simp [newRow, stats, bump]
      · rw [if_neg hpc, if_neg (fun h => hpc ⟨h.1, h.2.1⟩)]
        simp
    · rename_i hnc
      have htrue : isChildOf s x y = true := by
        cases h : isChildOf s x y with
        | false => exact absurd (by simp [h]) hnc
        | true => rfl
      obtain ⟨r, hrmem⟩ := isChildOf_iff.1 htrue
      have hhead : (edgeRows s x y).head?.isSome = true := by
        cases hrows : edgeRows s x y with
        | nil => rw [hrows] at hrmem; exact absurd hrmem (List.not_mem_nil r)
        | cons a t => simp
      obtain ⟨r₀, hr₀⟩ := Option.isSome_iff_exists.1 hhead
      have hrow := edgeRows_eq_singleton hg hr₀
      show edgeStats (updateWhere s x y fun r =>
        { r with count := r.count + 1, rating_sum := r.rating_sum + rating,
                 rating_sum_squares := r.rating_sum_squares + rating * rating })
        p c = _
      unfold edgeStats
      rw [edgeRows_updateWhere hg hrow (fun r =>
        { r with count := r.count + 1, rating_sum := r.rating_sum + rating,
                 rating_sum_squares := r.rating_sum_squares + rating * rating })
        (fun r => rfl) (fun r => rfl) (fun r => rfl) p c]
      by_cases hpc : p = x ∧ c = y
      · obtain ⟨hp, hc⟩ := hpc
        subst hp
        subst hc
        rw [if_pos ⟨rfl, rfl⟩, if_pos ⟨rfl, rfl, hxy⟩, hrow]
        simp [stats, bump]
      · rw [if_neg hpc, if_neg (fun h => hpc ⟨h.1, h.2.1⟩)]
  · rename_i hxy
    rw [if_neg (fun h => hxy h.2.2)]

theorem bumpN_add (o : Option (Int × Rat × Rat)) (m n : Nat) (r : Rat) :
    bumpN (bumpN o m r) n r = bumpN o (m + n) r := by
  induction n with
  | zero => rfl
  | succ n ih => show bump (bumpN (bumpN o m r) n r) r = _; rw [ih]; rfl

theorem countOf_bump (o : Option (Int × Rat × Rat)) (r : Rat) :
    countOf (bump o r) = countOf o + 1 := by
  cases o <;> rfl

theorem countOf_bumpN (o : Option (Int × Rat × Rat)) (n : Nat) (r : Rat) :
    countOf (bumpN o n r) = countOf o + (n : Int) := by
  induction n with
  | zero => simp [bumpN]
  | succ n ih =>
    show countOf (bump (bumpN o n r) r) = _
    rw [countOf_bump, ih]
    push_cast
    ring

theorem bumpN_isSome {o : Option (Int × Rat × Rat)} {n : Nat} {r : Rat}
    (h : 0 < n) : (bumpN o n r).isSome = true := by
  cases n with
  | zero => exact absurd h (by simp)
  | succ n =>
    show (bump (bumpN o n r) r).isSome = true
    cases bumpN o n r <;> rfl

theorem good_innerFold {rating : Rat} {x : String} (ys : List String) :
    ∀ s : Store, Good s → existsRootElement s x = true →
      Good (ys.foldl (pairUpdate rating x) s) ∧
      existsRootElement (ys.foldl (pairUpdate rating x) s) x = true ∧
      (ys.foldl (pairUpdate rating x) s).elements = s.elements := by
  induction ys with
  | nil => exact fun s hg hx => ⟨hg, hx, rfl⟩
  | cons y ys ih =>
    intro s hg hx
    rw [List.foldl_cons]
    have hel := pairUpdate_elements rating x s y
    obtain ⟨h1, h2, h3⟩ := ih (pairUpdate rating x s y)
      (good_pairUpdate hg hx rating y)
      (by rw [existsRootElement_congr hel x]; exact hx)
    exact ⟨h1, h2, h3.trans hel⟩

theorem edgeStats_innerFold {rating : Rat} {x : String} (ys : List String) :
    ∀ s : Store, Good s → existsRootElement s x = true → ∀ p c,
      edgeStats (ys.foldl (pairUpdate rating x) s) p c =
        if p = x ∧ c ≠ x then bumpN (edgeStats s p c) (ys.count c) rating
        else edgeStats s p c := by
  induction ys with
  | nil =>
    intro s hg hx p c
    by_cases hpc : p = x ∧ c ≠ x <;> simp [hpc, bumpN]
  | cons y ys ih =>
    intro s hg hx p c
    have hel := pairUpdate_elements rating x s y
    have h1 : edgeStats (List.foldl (pairUpdate rating x) s (y :: ys)) p c =
        if p = x ∧ c ≠ x then
          bumpN (edgeStats (pairUpdate rating x s y) p c) (ys.count c) rating
        else edgeStats (pairUpdate rating x s y) p c := by
      rw [List.foldl_cons]
      exact ih (pairUpdate rating x s y) (good_pairUpdate hg hx rating y)
        (by rw [existsRootElement_congr hel x]; exact hx) p c
    rw [h1, edgeStats_pairUpdate hg hx rating y p c]
    by_cases hA : p = x ∧ c ≠ x
    · rw [if_pos hA, if_pos hA]
      by_cases hB : p = x ∧ c = y ∧ x ≠ y
      · rw [if_pos hB]
        have hcount : (y :: ys).count c = ys.count c + 1 := by
          rw [hB.2.1]
          exact List.count_cons_self y ys
        rw [hcount, show bump (edgeStats s p c) rating =
          bumpN (edgeStats s p c) 1 rating from rfl, bumpN_add, Nat.add_comm]
      · rw [if_neg hB]
        have hcy : c ≠ y := fun h =>
          hB ⟨hA.1, h, fun heq => hA.2 (by rw [h, ← heq])⟩
        rw [List.count_cons_of_ne hcy]
    · rw [if_neg hA, if_neg hA]
      have hB : ¬(p = x ∧ c = y ∧ x ≠ y) := by
        intro ⟨hp, hcy, hxy⟩
        have hcx : c = x := by
          by_contra hne
          exact hA ⟨hp, hne⟩
        exact hxy (by rw [← hcx, hcy])
      rw [if_neg hB]

theorem edgeStats_ensureRoot {s : Store} (hg : Good s) (x p c : String) :
    edgeStats (ensureRoot s x) p c = edgeStats s p c := by
  unfold edgeStats
  rw [edgeRows_ensureRoot hg x p c]

theorem good_feedLoop {rating : Rat} {l : List String} (xs : List String) :
    ∀ s : Store, Good s → Good (feedLoop rating l s xs) := by
  induction xs with
  | nil => exact fun s hg => hg
  | cons x xs ih =>
    intro s hg
    show Good (feedLoop rating l (l.foldl (pairUpdate rating x) (ensureRoot s x)) xs)
    exact ih _ (good_innerFold l (ensureRoot s x) (good_ensureRoot hg x)
      (existsRootElement_ensureRoot_self s x)).1

theorem edgeStats_feedLoop {rating : Rat} {l : List String} (xs : List String) :
    ∀ s : Store, Good s → ∀ p c, p ≠ c →
      edgeStats (feedLoop rating l s xs) p c =
        bumpN (edgeStats s p c) (xs.count p * l.count c) rating := by
  induction xs with
  | nil =>
    intro s hg p c hpc
    simp [feedLoop, bumpN]
  | cons x xs ih =>
    intro s hg p c hpc
    show edgeStats
      (feedLoop rating l (l.foldl (pairUpdate rating x) (ensureRoot s x)) xs) p c = _
    have hg1 : Good (ensureRoot s x) := good_ensureRoot hg x
    have hx1 : existsRootElement (ensureRoot s x) x = true :=
      existsRootElement_ensureRoot_self s x
    have hg2 : Good (l.foldl (pairUpdate rating x) (ensureRoot s x)) :=
      (good_innerFold l (ensureRoot s x) hg1 hx1).1
    rw [ih _ hg2 p c hpc]
    rw [edgeStats_innerFold l (ensureRoot s x) hg1 hx1 p c,
      edgeStats_ensureRoot hg x p c]
    by_cases hpx : p = x
    · subst hpx
      rw [if_pos ⟨rfl, fun h => hpc h.symm⟩, bumpN_add, List.count_cons_self]
      congr 1
      ring
    · rw [if_neg (fun h => hpx h.1), List.count_cons_of_ne hpx]

theorem edgeStats_feedLoop_self {rating : Rat} {l : List String}
    (xs : List String) :
    ∀ s : Store, Good s → ∀ p,
      edgeStats (feedLoop rating l s xs) p p = edgeStats s p p := by
  induction xs with
  | nil => exact fun s hg p => rfl
  | cons x xs ih =>
    intro s hg p
    show edgeStats
      (feedLoop rating l (l.foldl (pairUpdate rating x) (ensureRoot s x)) xs) p p = _
    have hg1 : Good (ensureRoot s x) := good_ensureRoot hg x
    have hx1 : existsRootElement (ensureRoot s x) x = true :=
      existsRootElement_ensureRoot_self s x
    have hg2 : Good (l.foldl (pairUpdate rating x) (ensureRoot s x)) :=
      (good_innerFold l (ensureRoot s x) hg1 hx1).1
    rw [ih _ hg2 p]
    rw [edgeStats_innerFold l (ensureRoot s x) hg1 hx1 p p,
      edgeStats_ensureRoot hg x p p]
    rw [if_neg (fun h => h.2 h.1)]

theorem good_feedLine {s : Store} (hg : Good s) (rating : Rat)
    (l : List String) : Good (feedLine s rating l) :=
  good_feedLoop l s hg

theorem edgeStats_feedLine {s : Store} (hg : Good s) (rating : Rat)
    {l : List String} {p c : String} (hpc : p ≠ c) :
    edgeStats (feedLine s rating l) p c =
      bumpN (edgeStats s p c) (l.count p * l.count c) rating :=
  edgeStats_feedLoop l s hg p c hpc

theorem edgeStats_feedLine_self {s : Store} (hg : Good s) (rating : Rat)
    (l : List String) (p : String) :
    edgeStats (feedLine s rating l) p p = edgeStats s p p :=
  edgeStats_feedLoop_self l s hg p

theorem good_feedList (seqs : List (Rat × List String)) :
    ∀ s : Store, Good s →
      Good (seqs.foldl (fun s rl => feedLine s rl.1 rl.2) s) := by
  induction seqs with
  | nil => exact fun s hg => hg
  | cons rl seqs ih =>
    intro s hg
    rw [List.foldl_cons]
    exact ih _ (good_feedLine hg rl.1 rl.2)

theorem good_feedAll (seqs : List (Rat × List String)) : Good (feedAll seqs) :=
  good_feedList seqs emptyStore good_emptyStore

theorem edgeStats_feedList {p c : String} (hpc : p ≠ c)
    (seqs : List (Rat × List String)) :
    ∀ s : Store, Good s →
      edgeStats (seqs.foldl (fun s rl => feedLine s rl.1 rl.2) s) p c =
        seqs.foldl (fun o rl => bumpN o (rl.2.count p * rl.2.count c) rl.1)
          (edgeStats s p c) := by
  induction seqs with
  | nil => exact fun s hg => rfl
  | cons rl seqs ih =>
    intro s hg
    rw [List.foldl_cons, List.foldl_cons, ih _ (good_feedLine hg rl.1 rl.2),
      edgeStats_feedLine hg rl.1 hpc]

theorem edgeStats_feedAll {p c : String} (hpc : p ≠ c)
    (seqs : List (Rat × List String)) :
    edgeStats (feedAll seqs) p c =
      seqs.foldl (fun o rl => bumpN o (rl.2.count p * rl.2.count c) rl.1)
        none :=
  edgeStats_feedList hpc seqs emptyStore good_emptyStore

theorem edgeStats_feedList_self (seqs : List (Rat × List String)) (p : String) :
    ∀ s : Store, Good s →
      edgeStats (seqs.foldl (fun s rl => feedLine s rl.1 rl.2) s) p p =
        edgeStats s p p := by
  induction seqs with
  | nil => exact fun s hg => rfl
  | cons rl seqs ih =>
    intro s hg
    rw [List.foldl_cons, ih _ (good_feedLine hg rl.1 rl.2),
      edgeStats_feedLine_self hg rl.1 rl.2 p]

theorem edgeStats_feedAll_self (seqs : List (Rat × List String)) (p : String) :
    edgeStats (feedAll seqs) p p = none :=
  edgeStats_feedList_self seqs p emptyStore good_emptyStore

theorem edgeRows_eq_nil_of_edgeStats_none {s : Store} {p c : String}
    (h : edgeStats s p c = none) : edgeRows s p c = [] := by
  unfold edgeStats at h
  cases hrows : edgeRows s p c with
  | nil => rfl
  | cons a t => rw [hrows] at h; simp at h

theorem innerFold_elements {rating : Rat} {x : String} (ys : List String) :
    ∀ s : Store, (ys.foldl (pairUpdate rating x) s).elements = s.elements := by
  induction ys with
  | nil => exact fun s => rfl
  | cons y ys ih =>
    intro s
    rw [List.foldl_cons]
    exact (ih _).trans (pairUpdate_elements rating x s y)

theorem existsRootElement_innerFold {rating : Rat} {x n : String}
    (ys : List String) (s : Store) (h : existsRootElement s n = true) :
    existsRootElement (ys.foldl (pairUpdate rating x) s) n = true := by
  rw [existsRootElement_congr (innerFold_elements ys s) n]
  exact h

theorem existsRootElement_feedLoop_mono {rating : Rat} {l : List String}
    {n : String} (xs : List String) :
    ∀ s : Store, existsRootElement s n = true →
      existsRootElement (feedLoop rating l s xs) n = true := by
  induction xs with
  | nil => exact fun s h => h
  | cons x xs ih =>
    intro s h
    show existsRootElement
      (feedLoop rating l (l.foldl (pairUpdate rating x) (ensureRoot s x)) xs) n = true
    exact ih _ (existsRootElement_innerFold l _
      (existsRootElement_ensureRoot_mono x h))

theorem feedLoop_registers {rating : Rat} {l : List String} (xs : List String) :
    ∀ s : Store, ∀ n ∈ xs, existsRootElement (feedLoop rating l s xs) n = true := by
  induction xs with
  | nil => exact fun s n hn => absurd hn (List.not_mem_nil n)
  | cons x xs ih =>
    intro s n hn
    show existsRootElement
      (feedLoop rating l (l.foldl (pairUpdate rating x) (ensureRoot s x)) xs) n = true
    rcases List.mem_cons.1 hn with rfl | hn
    · exact existsRootElement_feedLoop_mono xs _ (existsRootElement_innerFold l _
        (existsRootElement_ensureRoot_self s n))
    · exact ih _ n hn

theorem feedLine_registers {s : Store} {rating : Rat} {l : List String}
    {n : String} (hn : n ∈ l) :
    existsRootElement (feedLine s rating l) n = true :=
  feedLoop_registers l s n hn

theorem feedLoop_elements_of_all {rating : Rat} {l : List String}
    (xs : List String) :
    ∀ s : Store, (∀ z ∈ xs, existsRootElement s z = true) →
      (feedLoop rating l s xs).elements = s.elements := by
  induction xs with
  | nil => exact fun s _ => rfl
  | cons x xs ih =>
    intro s hall
    show (feedLoop rating l (l.foldl (pairUpdate rating x) (ensureRoot s x)) xs).elements
      = s.elements
    have hx : existsRootElement s x = true := hall x (by simp)
    rw [ensureRoot_eq_of_exists hx]
    have hel : (l.foldl (pairUpdate rating x) s).elements = s.elements :=
      innerFold_elements l s
    have hrest := ih (l.foldl (pairUpdate rating x) s) (fun z hz => by
      rw [existsRootElement_congr hel z]
      exact hall z (List.mem_cons_of_mem x hz))
    rw [hrest, hel]

theorem feedLine_elements_of_all {s : Store} {rating : Rat} {l : List String}
    (hall : ∀ z ∈ l, existsRootElement s z = true) :
    (feedLine s rating l).elements = s.elements :=
  feedLoop_elements_of_all l s hall

theorem bumpN_none_closed (n : Nat) (r : Rat) :
    bumpN none n r = if n = 0 then none else
      some ((n : Int), (n : Rat) * r, (n : Rat) * (r * r)) := by
  induction n with
  | zero => rfl
  | succ n ih =>
    show bump (bumpN none n r) r = _
    rw [ih]
    by_cases h : n = 0
    · subst h
      norm_num [bump]
    · rw [if_neg h, if_neg (Nat.succ_ne_zero n)]
      simp only [bump, Option.some.injEq, Prod.mk.injEq]
      refine ⟨by push_cast; ring, by push_cast; ring, by push_cast; ring⟩

theorem bumpN_none_double (n : Nat) (r : Rat) :
    bumpN none (n + n) r =
      (bumpN none n r).map fun t => (2 * t.1, 2 * t.2.1, 2 * t.2.2) := by
  rw [bumpN_none_closed, bumpN_none_closed]
  by_cases h : n = 0
  · subst h
    rfl
  · rw [if_neg h, if_neg (by omega : ¬(n + n = 0))]
    simp only [Option.map_some', Option.some.injEq, Prod.mk.injEq]
    refine ⟨by push_cast; ring, by push_cast; ring, by push_cast; ring⟩

/-- The spec quantity: the number of co-occurrences of `x` and `y` across the
fed sequences, counting every repeated occurrence within a sequence
separately — occurrences of `x` times occurrences of `y`, summed over
sequences. -/
def coOccur (seqs : List (Rat × List String)) (x y : String) : Nat :=
  (seqs.map fun rl => rl.2.count x * rl.2.count y).sum

theorem countOf_foldBump (seqs : List (Rat × List String)) (p c : String) :
    ∀ o : Option (Int × Rat × Rat),
      countOf (seqs.foldl
        (fun o rl => bumpN o (rl.2.count p * rl.2.count c) rl.1) o) =
      countOf o + (coOccur seqs p c : Int) := by
  induction seqs with
  | nil => intro o; simp [coOccur]
  | cons rl seqs ih =>
    intro o
    rw [List.foldl_cons, ih, countOf_bumpN]
    simp only [coOccur, List.map_cons, List.sum_cons]
    push_cast
    ring

theorem foldBump_eq_none_of_zero (seqs : List (Rat × List String))
    (p c : String) (h : coOccur seqs p c = 0) :
    seqs.foldl (fun o rl => bumpN o (rl.2.count p * rl.2.count c) rl.1)
      none = none := by
  induction seqs with
  | nil => rfl
  | cons rl seqs ih =>
    simp only [coOccur, List.map_cons, List.sum_cons] at h
    have h1 : rl.2.count p * rl.2.count c = 0 := by omega
    have h2 : coOccur seqs p c = 0 := by
      simp only [coOccur]
      omega
    rw [List.foldl_cons, h1]
    exact ih h2

theorem foldBump_isSome_of_pos (seqs : List (Rat × List String))
    (p c : String) (h : 0 < coOccur seqs p c) :
    (seqs.foldl (fun o rl => bumpN o (rl.2.count p * rl.2.count c) rl.1)
      none).isSome = true := by
  cases hfold : seqs.foldl
      (fun o rl => bumpN o (rl.2.count p * rl.2.count c) rl.1) none with
  | some t => rfl
  | none =>
    have hcount := countOf_foldBump seqs p c none
    rw [hfold] at hcount
    have : (coOccur seqs p c : Int) = 0 := by
      simpa [countOf] using hcount.symm
    omega

/-- Python `incrementChild` on an absent edge (NULL `child_id`): no row matches the
UPDATE and the store is unchanged. -/
theorem incrementChild_of_getChildId_none {s : Store} {p c : String}
    {k : Int} {rating : Rat} (h : getChildId s p c = none) :
    incrementChild s p c k rating = s := by
  rw [incrementChild_eq_updateWhere]
  exact updateWhere_of_none h

/-- Python `incrementChild` on the unique existing edge adds `k`, `rating` and
`rating²` to the stored statistics. -/
theorem edgeStats_incrementChild {s : Store} (hg : Good s) {p c : String}
    {cnt : Int} {rs rss : Rat} (h : edgeStats s p c = some (cnt, rs, rss))
    (k : Int) (rating : Rat) :
    edgeStats (incrementChild s p c k rating) p c =
      some (cnt + k, rs + rating, rss + rating * rating) := by
  unfold edgeStats at h
  cases hh : (edgeRows s p c).head? with
  | none => rw [hh] at h; simp at h
  | some r₀ =>
    rw [hh] at h
    have hstats : stats r₀ = (cnt, rs, rss) := by simpa using h
    obtain ⟨h1, h2, h3⟩ : r₀.count = cnt ∧ r₀.rating_sum = rs ∧
        r₀.rating_sum_squares = rss := by
      simpa [stats, Prod.ext_iff] using hstats
    have hrow := edgeRows_eq_singleton hg hh
    rw [incrementChild_eq_updateWhere]
    unfold edgeStats
    rw [edgeRows_updateWhere hg hrow (fun r =>
      { r with count := r.count + k, rating_sum := r.rating_sum + rating,
               rating_sum_squares := r.rating_sum_squares + rating * rating })
      (fun r => rfl) (fun r => rfl) (fun r => rfl) p c]
    rw [if_pos ⟨rfl, rfl⟩]
    simp [stats, h1, h2, h3]

/-- Python `updateChild` on the unique existing edge overwrites the statistics
absolutely with `(count, rating, rating²)`. -/
theorem edgeStats_updateChild {s : Store} (hg : Good s) {p c : String}
    (hsome : (edgeStats s p c).isSome = true) (k : Int) (rating : Rat) :
    edgeStats (updateChild s p c k rating) p c =
      some (k, rating, rating * rating) := by
  unfold edgeStats at hsome
  cases hh : (edgeRows s p c).head? with
  | none => rw [hh] at hsome; simp at hsome
  | some r₀ =>
    have hrow := edgeRows_eq_singleton hg hh
    rw [updateChild_eq_updateWhere]
    unfold edgeStats
    rw [edgeRows_updateWhere hg hrow (fun r =>
      { r with count := k, rating_sum := rating,
               rating_sum_squares := rating * rating })
      (fun r => rfl) (fun r => rfl) (fun r => rfl) p c]
    rw [if_pos ⟨rfl, rfl⟩]
    simp [stats]

end MarkovModel

namespace DataModule

/-- The module's mutating entry points, as data, to state frame properties
over arbitrary operations. -/
inductive Op where
  | addRoot (name : String)
  | addRelated (parent name : String) (count : Int) (rating : Rat)
  | update (parent child : String) (count : Int) (rating : Rat)
  | updateCount (parent child : String) (increment : Int)
  | updateRating (parent child : String) (rating : Rat)
  | increment (parent child : String) (increment : Int) (rating : Rat)
  | feed (rating : Rat) (relationList : List String)
  | commitOp

/-- Running one entry point against the connection. -/
def applyOp : Op → DB → DB
  | Op.addRoot n, db => { db with pending := addRootElement db.pending n }
  | Op.addRelated p n k r, db =>
    { db with pending := addRelatedElement db.pending p n k r }
  | Op.update p c k r, db =>
    { db with pending := updateChild db.pending p c k r }
  | Op.updateCount p c k, db =>
    { db with pending := updateChildCount db.pending p c k }
  | Op.updateRating p c r, db =>
    { db with pending := updateChildRating db.pending p c r }
  | Op.increment p c k r, db =>
    { db with pending := incrementChild db.pending p c k r }
  | Op.feed r l, db => feedLineDB db r l
  | Op.commitOp, db => commitDB db

end DataModule

namespace MarkovModel

open DataModule MarkovRatingSystem

/-- Relation rows survive from `s₁` to `s₂`, identified by id, class and
parent (their statistics fields may change). -/
def RelPres (s₁ s₂ : Store) : Prop :=
  ∀ r ∈ s₁.relations, ∃ r' ∈ s₂.relations,
    r'.id = r.id ∧ r'.class_ = r.class_ ∧ r'.parent_id = r.parent_id

theorem relPres_refl (s : Store) : RelPres s s :=
  fun r hr => ⟨r, hr, rfl, rfl, rfl⟩

theorem relPres_trans {s₁ s₂ s₃ : Store} (h₁ : RelPres s₁ s₂)
    (h₂ : RelPres s₂ s₃) : RelPres s₁ s₃ := by
  intro r hr
  obtain ⟨r', hr', hi, hc, hp⟩ := h₁ r hr
  obtain ⟨r'', hr'', hi', hc', hp'⟩ := h₂ r' hr'
  exact ⟨r'', hr'', hi'.trans hi, hc'.trans hc, hp'.trans hp⟩

theorem relPres_map (s : Store) (f : Row → Row)
    (hfi : ∀ r, (f r).id = r.id) (hfc : ∀ r, (f r).class_ = r.class_)
    (hfp : ∀ r, (f r).parent_id = r.parent_id) :
    RelPres s { s with relations := s.relations.map f } :=
  fun r hr => ⟨f r, List.mem_map_of_mem f hr, hfi r, hfc r, hfp r⟩

theorem relPres_updateWhere (s : Store) (x y : String) (g : Row → Row)
    (hgi : ∀ r, (g r).id = r.id) (hgc : ∀ r, (g r).class_ = r.class_)
    (hgp : ∀ r, (g r).parent_id = r.parent_id) :
    RelPres s (updateWhere s x y g) := by
  refine relPres_map s _ ?_ ?_ ?_ <;> intro r <;> dsimp only <;> split
  · exact hgi r
  · rfl
  · exact hgc r
  · rfl
  · exact hgp r
  · rfl

theorem relPres_addRelatedElement (s : Store) (p c : String) (k : Int)
    (rating : Rat) : RelPres s (addRelatedElement s p c k rating) :=
  fun r hr => ⟨r, List.mem_append_left _ hr, rfl, rfl, rfl⟩

theorem relPres_ensureRoot (s : Store) (x : String) :
    RelPres s (ensureRoot s x) := by
  unfold ensureRoot
  split
  · exact fun r hr => ⟨r, hr, rfl, rfl, rfl⟩
  · exact relPres_refl s

theorem relPres_pairUpdate (rating : Rat) (x : String) (s : Store)
    (y : String) : RelPres s (pairUpdate rating x s y) := by
  unfold pairUpdate
  split
  · split
    · exact relPres_addRelatedElement s x y 1 rating
    · show RelPres s (updateWhere s x y fun r =>
        { r with count := r.count + 1, rating_sum := r.rating_sum + rating,
                 rating_sum_squares := r.rating_sum_squares + rating * rating })
      exact relPres_updateWhere s x y _ (fun r => rfl) (fun r => rfl)
        (fun r => rfl)
  · exact relPres_refl s

theorem relPres_innerFold (rating : Rat) (x : String) (ys : List String) :
    ∀ s : Store, RelPres s (ys.foldl (pairUpdate rating x) s) := by
  induction ys with
  | nil => exact relPres_refl
  | cons y ys ih =>
    intro s
    rw [List.foldl_cons]
    exact relPres_trans (relPres_pairUpdate rating x s y) (ih _)

theorem relPres_feedLoop (rating : Rat) (l : List String) (xs : List String) :
    ∀ s : Store, RelPres s (feedLoop rating l s xs) := by
  induction xs with
  | nil => exact relPres_refl
  | cons x xs ih =>
    intro s
    show RelPres s
      (feedLoop rating l (l.foldl (pairUpdate rating x) (ensureRoot s x)) xs)
    exact relPres_trans (relPres_trans (relPres_ensureRoot s x)
      (relPres_innerFold rating x l _)) (ih _)

theorem elements_mono_ensureRoot (s : Store) (x : String) :
    ∀ e ∈ s.elements, e ∈ (ensureRoot s x).elements := by
  unfold ensureRoot
  split
  · exact fun e he => List.mem_append_left _ he
  · exact fun e he => he

theorem elements_mono_feedLoop (rating : Rat) (l : List String)
    (xs : List String) :
    ∀ s : Store, ∀ e ∈ s.elements, e ∈ (feedLoop rating l s xs).elements := by
  induction xs with
  | nil => exact fun s e he => he
  | cons x xs ih =>
    intro s e he
    show e ∈
      (feedLoop rating l (l.foldl (pairUpdate rating x) (ensureRoot s x)) xs).elements
    apply ih
    rw [innerFold_elements]
    exact elements_mono_ensureRoot s x e he

end MarkovModel

section Sanity

open DataModule MarkovRatingSystem MarkovModel

example : Good (feedLine emptyStore 1 ["a", "b"]) := by decide

example : (feedLine emptyStore 1 ["a", "b"]).relations.length = 2 := by decide

example :
    (edgeRows (feedLine emptyStore 1 ["a", "b", "c"]) "a" "b").map
      (fun r => (r.class_, r.id, r.count, r.parent_id)) =
      [("b", 1, 1, some 1)] := by decide

end Sanity

section Claims

open DataModule MarkovRatingSystem MarkovModel

/-- A small concrete store used as witness input: elements `a`, `b` and the
single edge `(a, b)` with count 1, rating_sum 1, rating_sum_squares 1 —
exactly the rows `feedLine(1, [a, b])` stores for the pair `(a, b)`. -/
def witnessStore : Store :=
  { elements := [{ class_ := "a", id := 1 }, { class_ := "b", id := 2 }],
    relations := [{ class_ := "b", id := 1, count := 1, rating_sum := 1,
                    rating_sum_squares := 1, parent_id := some 1 }],
    nextElemId := 3, nextRelId := 2 }

/-- Claim C1: after feeding rated sequences into a fresh datastore via
`feedLine`, for every ordered pair of distinct names `(x, y)` the stored edge
`(x, y)` has count equal to the total number of times `x` and `y` co-occur
across all fed sequences, counting each repeated occurrence within a sequence
separately (`occurrences of x × occurrences of y`, summed over sequences); the
edge is absent exactly when that total is zero, and no self edge `(z, z)` is
ever created. -/
theorem C1_feed_pair_counts (seqs : List (Rat × List String)) (x y : String)
    (hxy : x ≠ y) :
    countOf (edgeStats (feedAll seqs) x y) = (coOccur seqs x y : Int) ∧
    (coOccur seqs x y = 0 → edgeStats (feedAll seqs) x y = none) ∧
    (0 < coOccur seqs x y → (edgeStats (feedAll seqs) x y).isSome = true) ∧
    (∀ z, edgeRows (feedAll seqs) z z = []) := by
  refine ⟨?_, ?_, ?_, ?_⟩
  · rw [edgeStats_feedAll hxy seqs]
    have h := countOf_foldBump seqs x y none
    simpa [countOf] using h
  · intro h
    rw [edgeStats_feedAll hxy seqs]
    exact foldBump_eq_none_of_zero seqs x y h
  · intro h
    rw [edgeStats_feedAll hxy seqs]
    exact foldBump_isSome_of_pos seqs x y h
  · intro z
    exact edgeRows_eq_nil_of_edgeStats_none (edgeStats_feedAll_self seqs z)

/-- Witness for C1 at the concrete batch `[(1, [a,b,c]), (10, [a,b])]` (the
spec's Examples 1 and 2): the pair `(a, b)` co-occurs twice, the stored count
is 2, the edge exists, and no self edge `(a, a)` exists. -/
theorem C1_feed_pair_counts_witness :
    countOf (edgeStats (feedAll [(1, ["a", "b", "c"]), (10, ["a", "b"])])
      "a" "b") = (2 : Int) ∧
    (edgeStats (feedAll [(1, ["a", "b", "c"]), (10, ["a", "b"])])
      "a" "b").isSome = true ∧
    edgeRows (feedAll [(1, ["a", "b", "c"]), (10, ["a", "b"])]) "a" "a" = [] := by
  have h := C1_feed_pair_counts [(1, ["a", "b", "c"]), (10, ["a", "b"])]
    "a" "b" (by decide)
  exact ⟨h.1.trans (by decide), h.2.2.1 (by decide), h.2.2.2 "a"⟩

/-- Claim C7: the ingestion pass touches both directions of every co-occurring
pair identically, so after feeding any batch from a fresh datastore the two
directed edges `(x, y)` and `(y, x)` carry identical count, ratingSum and
ratingSumSquares, while remaining two separate directed rows (no row belongs
to both directions). -/
theorem C7_symmetric_edges (seqs : List (Rat × List String)) (x y : String)
    (hxy : x ≠ y) :
    edgeStats (feedAll seqs) x y = edgeStats (feedAll seqs) y x ∧
    ∀ r ∈ edgeRows (feedAll seqs) x y, r ∉ edgeRows (feedAll seqs) y x := by
  constructor
  · rw [edgeStats_feedAll hxy seqs, edgeStats_feedAll (Ne.symm hxy) seqs]
    have hfun : (fun (o : Option (Int × Rat × Rat)) (rl : Rat × List String) =>
        bumpN o (rl.2.count x * rl.2.count y) rl.1) =
        fun o rl => bumpN o (rl.2.count y * rl.2.count x) rl.1 := by
      funext o rl
      rw [Nat.mul_comm]
    rw [hfun]
  · intro r hrxy hryx
    have h1 : r.class_ = y := (mem_edgeRows.1 hrxy).2.1
    have h2 : r.class_ = x := (mem_edgeRows.1 hryx).2.1
    exact hxy (by rw [← h2, h1])

/-- Witness for C7 at the spec's Example 3 batch `[(2, [d,b,c,e])]`: the edges
`(d, b)` and `(b, d)` carry identical statistics. -/
theorem C7_symmetric_edges_witness :
    edgeStats (feedAll [(2, ["d", "b", "c", "e"])]) "d" "b" =
      edgeStats (feedAll [(2, ["d", "b", "c", "e"])]) "b" "d" :=
  (C7_symmetric_edges [(2, ["d", "b", "c", "e"])] "d" "b" (by decide)).1

/-- Claim C6 counterexample: replaying an already-ingested sequence does not
double the affected edges when other sequences contributed to them.  After
feeding `(1, [a, b])` and `(3, [a, b])`, the edge `(a, b)` holds count 2;
replaying `(3, [a, b])` yields count 3, not the doubled 4 (the stored
statistics are not the doubles of the pre-replay ones). -/
theorem C6_replay_not_double_counterexample :
    ¬ (edgeStats (feedLine (feedAll [(1, ["a", "b"]), (3, ["a", "b"])])
        3 ["a", "b"]) "a" "b" =
      (edgeStats (feedAll [(1, ["a", "b"]), (3, ["a", "b"])]) "a" "b").map
        fun t => (2 * t.1, 2 * t.2.1, 2 * t.2.2)) := by
  intro h
  have h2 := congrArg (fun o => o.map fun t : Int × Rat × Rat => t.1) h
  revert h2
  decide

/-- Claim C6 (amended): feeding the identical `(rating, items)` sequence twice
into a fresh datastore yields, for every directed pair, exactly double the
count, ratingSum and ratingSumSquares that a single feed produces, and the
replay touches nothing else: the element table is unchanged by the second
feed.  (Doubling holds relative to an otherwise-empty store; when other
sequences share the edges, a replay adds the same per-edge delta instead of
doubling, as the counterexample shows.) -/
theorem C6_replay_from_empty_doubles (rating : Rat) (l : List String)
    (x y : String) :
    edgeStats (feedLine (feedLine emptyStore rating l) rating l) x y =
      (edgeStats (feedLine emptyStore rating l) x y).map
        (fun t => (2 * t.1, 2 * t.2.1, 2 * t.2.2)) ∧
    (feedLine (feedLine emptyStore rating l) rating l).elements =
      (feedLine emptyStore rating l).elements := by
  have hg0 : Good emptyStore := good_emptyStore
  have hg1 : Good (feedLine emptyStore rating l) := good_feedLine hg0 rating l
  constructor
  · by_cases hxy : x = y
    · subst hxy
      rw [edgeStats_feedLine_self hg1 rating l x,
        edgeStats_feedLine_self hg0 rating l x]
      rfl
    · rw [edgeStats_feedLine hg1 rating hxy, edgeStats_feedLine hg0 rating hxy]
      show bumpN (bumpN none (l.count x * l.count y) rating)
        (l.count x * l.count y) rating = _
      rw [bumpN_add]
      exact bumpN_none_double (l.count x * l.count y) rating
  · exact feedLine_elements_of_all fun z hz => feedLine_registers hz

/-- Claim C2 (code bug): `computeRating` executes the mean-rating query but
never fetches the cursor and has no return statement, so the Python function
returns None for every input — even for an element with out-edges, where the
SQL value left behind on the cursor is the claimed
`sum(rating_sum)/sum(count)` (here 1/1 = 1). -/
theorem C2_computeRating_returns_none :
    (∀ (s : Store) (e : String), computeRating s e = none) ∧
    (getChildren witnessStore "a").length = 1 ∧
    computeRatingQuery witnessStore "a" = some 1 := by
  refine ⟨fun s e => rfl, by decide, ?_⟩
  norm_num [computeRatingQuery, witnessStore, elemJoins]

/-- Claim C3 counterexample: `feedLine` performs no commit.  On a fresh
DataModule, ingesting `(1, [a, b])` leaves 2 relation rows on the pending
connection while the committed snapshot still holds none, so the final step of
ingesting the sequence was not a commit that flushed its mutations. -/
theorem C3_feedLine_no_commit_counterexample :
    (feedLineDB initDB 1 ["a", "b"]).pending.relations.length = 2 ∧
    (feedLineDB initDB 1 ["a", "b"]).committed.relations = [] :=
  ⟨by decide, rfl⟩

/-- Claim C3 (amended): `feedLine` itself never commits — the committed
snapshot other connections read is unchanged by ingestion — and a later
`commit()` (invoked by the caller, as `test1` does) publishes the entire
pending state, i.e. all of the sequence's mutations, in one step.  Until that
commit, none of a sequence's pair updates is visible outside the ingesting
connection. -/
theorem C3_feedLine_defers_commit (db : DB) (rating : Rat)
    (relationList : List String) :
    (feedLineDB db rating relationList).committed = db.committed ∧
    (commitDB (feedLineDB db rating relationList)).committed =
      (feedLineDB db rating relationList).pending :=
  ⟨rfl, rfl⟩

/-- Claim C4 counterexample: the relations table has no uniqueness constraint
and `addRelatedElement` performs no existence check: called for the pair
`(a, b)` that already has an edge, it silently inserts a second row — two
stored rows for one ordered pair, and no DuplicateEdgeError anywhere. -/
theorem C4_duplicate_insert_counterexample :
    (edgeRows (addRelatedElement witnessStore "a" "b" 1 5) "a" "b").length = 2 := by
  decide

/-- Claim C4 (amended): `addRelatedElement` is an unconditional INSERT: for a
registered parent it always appends one more matching relation row, in
particular creating a silent duplicate when the edge already exists.  Edge
uniqueness rests solely on `feedLine`'s check-then-insert discipline, not on
any constraint in the ledger. -/
theorem C4_insert_no_uniqueness (s : Store) (p c : String) (k : Int)
    (rating : Rat) (hp : existsRootElement s p = true) :
    (edgeRows (addRelatedElement s p c k rating) p c).length =
      (edgeRows s p c).length + 1 := by
  have hstep : edgeRows (addRelatedElement s p c k rating) p c =
      (s.relations ++ [newRow s p c k rating]).filter
        fun r => r.class_ == c && elemJoins s p r.parent_id := rfl
  obtain ⟨e₀, he₀, hc₀, hid₀⟩ := getRootElementId_spec hp
  have hj : elemJoins s p (getRootElementId s p) = true :=
    elemJoins_iff.2 ⟨e₀, he₀, hid₀, hc₀⟩
  have hone : ([newRow s p c k rating].filter
      fun r => r.class_ == c && elemJoins s p r.parent_id) =
      [newRow s p c k rating] := by
    simp [newRow, hj]
  rw [hstep, List.filter_append, hone, List.length_append]
  rfl

/-- Witness for C4: the witness store has parent `a` registered and one edge
`(a, b)`; the insert yields one more matching row. -/
theorem C4_insert_no_uniqueness_witness :
    existsRootElement witnessStore "a" = true ∧
    (edgeRows (addRelatedElement witnessStore "a" "b" 2 7) "a" "b").length =
      (edgeRows witnessStore "a" "b").length + 1 :=
  ⟨by decide, C4_insert_no_uniqueness witnessStore "a" "b" 2 7 (by decide)⟩

/-- Claim C5 counterexample: incrementing a non-existent edge raises no
NotFoundError: `incrementChild` on the absent pair `(a, zz)` returns the store
completely unchanged — `getChildId` yields None and the UPDATE's
`WHERE id=NULL` matches no row. -/
theorem C5_increment_missing_noop_counterexample :
    incrementChild witnessStore "a" "zz" 1 5 = witnessStore := rfl

/-- Claim C5 (amended): when no `(parent, child)` edge exists,
`incrementChild` silently leaves the store unchanged and raises no error; when
the unique edge exists, its effect is exactly `count += increment`,
`ratingSum += rating`, `ratingSumSquares += rating²`. -/
theorem C5_incrementChild_semantics (s : Store) (p c : String) (k : Int)
    (rating : Rat) (hg : Good s) :
    (getChildId s p c = none → incrementChild s p c k rating = s) ∧
    (∀ cnt rs rss, edgeStats s p c = some (cnt, rs, rss) →
      edgeStats (incrementChild s p c k rating) p c =
        some (cnt + k, rs + rating, rss + rating * rating)) :=
  ⟨fun h => incrementChild_of_getChildId_none h,
   fun _cnt _rs _rss h => edgeStats_incrementChild hg h k rating⟩

/-- Witness for C5 at the witness store: the invariant holds, the increment on
the absent pair `(a, zz)` is a no-op, and the increment on the existing edge
`(a, b)` (stats `(1, 1, 1)`) adds `(2, 3, 3·3)`. -/
theorem C5_incrementChild_semantics_witness :
    Good witnessStore ∧
    incrementChild witnessStore "a" "zz" 1 5 = witnessStore ∧
    edgeStats (incrementChild witnessStore "a" "b" 2 3) "a" "b" =
      some (1 + 2, (1 : Rat) + 3, (1 : Rat) + 3 * 3) := by
  refine ⟨by decide, ?_, ?_⟩
  · exact (C5_incrementChild_semantics witnessStore "a" "zz" 1 5 (by decide)).1 rfl
  · exact (C5_incrementChild_semantics witnessStore "a" "b" 2 3 (by decide)).2
      1 1 1 rfl

/-- Claim C8 counterexample: rows do not survive construction of a new
DataModule on the same database: `create_tables` (run unconditionally by
`__init__`) drops and recreates both tables, so a datastore holding two
element rows comes back empty, pending and committed alike. -/
theorem C8_create_tables_wipes_counterexample :
    witnessStore.elements.length = 2 ∧
    (create_tablesDB { pending := witnessStore, committed := witnessStore }).pending.elements = [] ∧
    (create_tablesDB { pending := witnessStore, committed := witnessStore }).committed.elements = [] :=
  ⟨by decide, rfl, rfl⟩

/-- Claim C8 (amended): no DataModule operation — the two inserts, the four
UPDATE variants, `feedLine`, `commit` — ever deletes a row from the datastore:
every element row survives verbatim and every relation row survives with its
identity (id, class, parent id); only relation statistics change in place.
Constructing a new DataModule on the same database, however, drops both tables
(see the counterexample). -/
theorem C8_ops_preserve_rows (op : Op) (db : DB) :
    (∀ e ∈ db.pending.elements, e ∈ (applyOp op db).pending.elements) ∧
    (∀ r ∈ db.pending.relations, ∃ r' ∈ (applyOp op db).pending.relations,
      r'.id = r.id ∧ r'.class_ = r.class_ ∧ r'.parent_id = r.parent_id) := by
  cases op with
  | addRoot n =>
    exact ⟨fun e he => List.mem_append_left _ he,
      fun r hr => ⟨r, hr, rfl, rfl, rfl⟩⟩
  | addRelated p n k r =>
    exact ⟨fun e he => he, relPres_addRelatedElement db.pending p n k r⟩
  | update p c k rat =>
    refine ⟨fun e he => he, ?_⟩
    show RelPres db.pending (updateWhere db.pending p c fun row =>
      { row with count := k, rating_sum := rat,
                 rating_sum_squares := rat * rat })
    exact relPres_updateWhere db.pending p c _ (fun r => rfl) (fun r => rfl)
      (fun r => rfl)
  | updateCount p c k =>
    refine ⟨fun e he => he, ?_⟩
    show RelPres db.pending (updateWhere db.pending p c fun r =>
      { r with count := r.count + k })
    exact relPres_updateWhere db.pending p c _ (fun r => rfl) (fun r => rfl)
      (fun r => rfl)
  | updateRating p c r =>
    refine ⟨fun e he => he, ?_⟩
    show RelPres db.pending (updateWhere db.pending p c fun row =>
      { row with rating_sum := row.rating_sum + r,
                 rating_sum_squares := row.rating_sum_squares + r * r })
    exact relPres_updateWhere db.pending p c _ (fun r => rfl) (fun r => rfl)
      (fun r => rfl)
  | increment p c k r =>
    refine ⟨fun e he => he, ?_⟩
    show RelPres db.pending (updateWhere db.pending p c fun row =>
      { row with count := row.count + k, rating_sum := row.rating_sum + r,
                 rating_sum_squares := row.rating_sum_squares + r * r })
    exact relPres_updateWhere db.pending p c _ (fun r => rfl) (fun r => rfl)
      (fun r => rfl)
  | feed r l =>
    exact ⟨fun e he => elements_mono_feedLoop r l l db.pending e he,
      relPres_feedLoop r l l db.pending⟩
  | commitOp =>
    exact ⟨fun e he => he, relPres_refl db.pending⟩

/-- Claim C9: the module exposes two overlapping update operations with
inconsistent semantics: on the unique existing edge, `updateChild` overwrites
absolutely — `count := count`, `rating_sum := rating`, `rating_sum_squares :=
rating²` recomputed from the single rating value, discarding all prior
accumulation — while `incrementChild` adds `increment`, `rating` and `rating²`
to the accumulated fields. -/
theorem C9_update_vs_increment (s : Store) (p c : String) (k : Int)
    (rating : Rat) (hg : Good s) (cnt : Int) (rs rss : Rat)
    (h : edgeStats s p c = some (cnt, rs, rss)) :
    edgeStats (updateChild s p c k rating) p c =
      some (k, rating, rating * rating) ∧
    edgeStats (incrementChild s p c k rating) p c =
      some (cnt + k, rs + rating, rss + rating * rating) :=
  ⟨edgeStats_updateChild hg (by rw [h]; rfl) k rating,
   edgeStats_incrementChild hg h k rating⟩

/-- Witness for C9 at the witness store's edge `(a, b)` with stats
`(1, 1, 1)`: `updateChild 5 3` overwrites to `(5, 3, 3·3)` while
`incrementChild 5 3` accumulates to `(1+5, 1+3, 1+3·3)`. -/
theorem C9_update_vs_increment_witness :
    Good witnessStore ∧
    edgeStats witnessStore "a" "b" = some (1, 1, 1) ∧
    edgeStats (updateChild witnessStore "a" "b" 5 3) "a" "b" =
      some (5, 3, 3 * 3) ∧
    edgeStats (incrementChild witnessStore "a" "b" 5 3) "a" "b" =
      some (1 + 5, (1 : Rat) + 3, (1 : Rat) + 3 * 3) := by
  have h := C9_update_vs_increment witnessStore "a" "b" 5 3 (by decide) 1 1 1 rfl
  exact ⟨by decide, rfl, h.1, h.2⟩

/-- Claim C10: `existsChildElement` executes its SELECT but never fetches the
result and has no return statement, so it returns None — a falsy non-boolean —
for every store and pair, whether or not the relation exists; it can never
report that a child exists (in the witness store the relation `(a, b)` exists
and it still returns None). -/
theorem C10_existsChildElement_none :
    (∀ (s : Store) (p c : String), existsChildElement s p c = none) ∧
    isChildOf witnessStore "a" "b" = true :=
  ⟨fun s p c => rfl, by decide⟩

end Claims
